import Mathlib

/-!
Verification of the meshgrid-cli serial/protocol layer.

Bytes are modelled as `Nat` (with explicit `< 256` bounds where a claim
speaks of byte sequences); frame texts are modelled as `List Char`
(Rust `String` after `from_utf8_lossy`).  The JSON parser is an external
library (`serde_json`), so it is a parameter of the protocol model.
-/

namespace Meshgrid

/-! ## COBS frame codec (src/serial.rs, `cobs_encode` / `cobs_decode`) -/

/-- Embedding of `cobs_encode`'s main loop (src/serial.rs lines 12-41).
State mapping to the Rust code: the output vector is
`done ++ [codeByte] ++ groupRev.reverse` where `code_ptr` points at the
placeholder `codeByte` slot; here the function returns the part of the
output from `code_ptr` on, i.e. `code :: groupRev.reverse ++ <rest>`,
with `groupRev` the bytes pushed since the last code byte (most recent
first) and `code = groupRev.length + 1`.
For each input byte: a zero byte finalizes the current group (write
`code`, start a fresh group); a non-zero byte is appended to the group,
and when the incremented code reaches 0xFF the full 254-byte group is
finalized.  At the end the final code byte is written. -/
def cobs_encode_go : List Nat → List Nat → Nat → List Nat
  | [], groupRev, code => code :: groupRev.reverse
  | b :: rest, groupRev, code =>
    if b = 0 then
      (code :: groupRev.reverse) ++ cobs_encode_go rest [] 1
    else
      if code + 1 = 255 then
        (255 :: (b :: groupRev).reverse) ++ cobs_encode_go rest [] 1
      else
        cobs_encode_go rest (b :: groupRev) (code + 1)

/-- Embedding of `cobs_encode` (src/serial.rs lines 12-41): initial state
is an empty group with `code = 1`. -/
def cobs_encode (data : List Nat) : List Nat :=
  cobs_encode_go data [] 1

/-- Embedding of `cobs_decode`'s loop (src/serial.rs lines 45-76) as a
left-to-right pass.  State mapping to the Rust code: `rem` is the number
of data bytes still to copy from the current group (`code - 1` minus the
bytes copied so far), and `prev` is the value of the current group's code
byte (the Rust local `code`); `prev = 255` initially, so that no zero is
inserted before the first group, matching the source where the
zero-insertion happens only after a finished group with `code < 0xFF`
and only when `i < data.len()`.
Cases: with `rem = 0` the next byte is a code byte (`code == 0` is
invalid; otherwise the boundary zero for the previous group is inserted
when `prev < 255`, which is exactly the source's `code < 0xFF && i <
data.len()` check since a next byte exists); with `rem > 0` the byte is
copied verbatim.  Input exhaustion ends the loop, including mid-group
(the source's `break` in the copy loop). -/
def cobs_decode_go : List Nat → Nat → Nat → Option (List Nat)
  | [], _, _ => some []
  | b :: rest, 0, prev =>
    if b = 0 then
      none
    else
      match cobs_decode_go rest (b - 1) b with
      | none => none
      | some t => some (if prev < 255 then 0 :: t else t)
  | b :: rest, rem + 1, prev =>
    (cobs_decode_go rest rem prev).map (fun t => b :: t)

/-- Embedding of `cobs_decode` (src/serial.rs lines 45-76); the empty
input returns `some []` as in the source's early return. -/
def cobs_decode (data : List Nat) : Option (List Nat) :=
  cobs_decode_go data 0 255

/-- Bytes written on the wire by `write_cobs_frame`
(src/serial.rs lines 198-205): the encoding followed by the single zero
frame delimiter. -/
def write_cobs_frame_bytes (data : List Nat) : List Nat :=
  cobs_encode data ++ [0]

/-! ## Text utilities

Frame texts are modelled as `List Char` (the Rust `String` obtained via
`String::from_utf8_lossy`). -/

/-- Whitespace test modelling Rust `char::is_whitespace` on the ASCII
whitespace characters that occur in the protocol's frames. -/
def isWs (c : Char) : Bool :=
  c == ' ' || c == '\t' || c == '\n' || c == '\r'

/-- Removal of leading whitespace, as in Rust `str::trim_start`. -/
def trimLeftChars : List Char → List Char
  | [] => []
  | c :: rest => if isWs c then trimLeftChars rest else c :: rest

/-- Rust `str::trim`: whitespace removed from both ends. -/
def trimChars (s : List Char) : List Char :=
  (trimLeftChars (trimLeftChars s).reverse).reverse

/-- Rust `str::starts_with` on our character-list strings. -/
def startsWithL : List Char → List Char → Bool
  | [], _ => true
  | _ :: _, [] => false
  | p :: ps, c :: cs => p == c && startsWithL ps cs

/-! ## JSON values

The JSON parser is the external `serde_json` library, so protocol
theorems are parametric in a parse function `List Char → Option Json`;
only the value shape is fixed here. -/

/-- Shape of parsed `serde_json::Value` data as far as the protocol
inspects it. -/
inductive Json where
  | null
  | bool (b : Bool)
  | num (n : Int)
  | str (s : List Char)
  | arr (elems : List Json)
  | obj (fields : List (List Char × Json))

/-- First-match lookup of a key in a JSON object's field list, modelling
`serde_json::Value::get(key)` on an object. -/
def jsonLookup : List (List Char × Json) → List Char → Option Json
  | [], _ => none
  | (k, v) :: rest, key => if k == key then some v else jsonLookup rest key

/-- Modelling `json.get("type").and_then(|v| v.as_str())`
(src/protocol.rs line 218). -/
def jsonTypeField : Json → Option (List Char)
  | .obj fields =>
    match jsonLookup fields "type".toList with
    | some (.str s) => some s
    | _ => none
  | _ => none

/-- A frame is a debug frame when its text parses as JSON whose `"type"`
field is the string `"debug"` (src/protocol.rs lines 217-224). -/
def isDebugFrame (parse : List Char → Option Json) (line : List Char) : Bool :=
  match parse line with
  | some j => jsonTypeField j == some "debug".toList
  | none => false

/-! ## Protocol engine: response classification
(src/protocol.rs, `Protocol::read_response`, lines 195-255) -/

/-- The `Response` enum (src/protocol.rs lines 118-125). -/
inductive Response where
  | ok (msg : Option (List Char))
  | error (msg : List Char)
  | json (v : Json)

/-- Outcome of handling one inbound frame inside `read_response`'s loop:
skip it (debug or unrecognized, counted against the budget), return a
`Response`, or abort with the error propagated by the `?` on
`serde_json::from_str` for a `{`/`[`-prefixed line that fails to parse
(src/protocol.rs line 240). -/
inductive FrameStep where
  | skip
  | reply (r : Response)
  | parseFail

/-- Per-frame classification logic of `read_response`
(src/protocol.rs lines 217-253), in source order: debug check, `OK`
prefix, `ERR` prefix, `{`/`[` JSON parse, `PKT` prefix, `PONG` prefix,
otherwise skip. -/
def classifyFrame (parse : List Char → Option Json) (line : List Char) : FrameStep :=
  if isDebugFrame parse line then .skip
  else if startsWithL "OK".toList line then
    let data := trimChars (line.drop 2)
    .reply (.ok (if data.isEmpty then none else some data))
  else if startsWithL "ERR".toList line then
    .reply (.error (trimChars (line.drop 3)))
  else if startsWithL ['\x7b'] line || startsWithL ['['] line then
    match parse line with
    | some j => .reply (.json j)
    | none => .parseFail
  else if startsWithL "PKT".toList line then
    .reply (.ok (some line))
  else if startsWithL "PONG".toList line then
    .reply (.ok (some line))
  else
    .skip

/-- The skip budget `MAX_SKIP_FRAMES` (src/protocol.rs line 198). -/
def MAX_SKIP_FRAMES : Nat := 50

/-- Result of `read_response`: a `Response`, the `"Command timeout"`
bail, the `"Too many unrecognized frames"` bail, or the propagated JSON
parse error. -/
inductive ReadResult where
  | ok (r : Response)
  | timeout
  | tooMany
  | parseFail

/-- The `read_response` loop (src/protocol.rs lines 195-255) over a
modelled inbound stream: each element is `some line` for a frame
delivered within the read timeout and `none` for an elapsed timeout;
an exhausted stream also times out.  The budget check happens at the
top of the loop, before the read, exactly as in the source. -/
def read_response_go (parse : List Char → Option Json) :
    List (Option (List Char)) → Nat → ReadResult
  | [], skipCount =>
      if MAX_SKIP_FRAMES ≤ skipCount then .tooMany else .timeout
  | none :: _, skipCount =>
      if MAX_SKIP_FRAMES ≤ skipCount then .tooMany else .timeout
  | some line :: rest, skipCount =>
      if MAX_SKIP_FRAMES ≤ skipCount then .tooMany
      else
        match classifyFrame parse line with
        | .skip => read_response_go parse rest (skipCount + 1)
        | .reply r => .ok r
        | .parseFail => .parseFail

/-- Entry point of `read_response`: the skip counter starts at zero. -/
def read_response (parse : List Char → Option Json)
    (input : List (Option (List Char))) : ReadResult :=
  read_response_go parse input 0

/-- Concrete stand-in for the external JSON parser, used to instantiate
the parser-parametric theorems at allowed parser behaviours: it
recognizes exactly a debug frame and the object of the spec's example
(braces written as \x7b and \x7d). -/
def parseStub (s : List Char) : Option Json :=
  if s == "\x7b\"type\":\"debug\"\x7d".toList then
    some (.obj [("type".toList, .str "debug".toList)])
  else if s == "\x7b\"a\":1\x7d".toList then
    some (.obj [("a".toList, .num 1)])
  else
    none

/-! ## Number parsing used by the monitor/packet paths

Models of the Rust standard-library string-to-integer conversions the
protocol calls (`i16::from_str` via `parse()`, `u8::from_str_radix(_, 16)`,
`usize::from_str` via `parse()`). -/

/-- Value of an ASCII decimal digit. -/
def decDigit? (c : Char) : Option Nat :=
  if '0' ≤ c ∧ c ≤ '9' then some (c.toNat - '0'.toNat) else none

/-- Accumulates decimal digits; fails on any non-digit. -/
def decDigitsGo : List Char → Nat → Option Nat
  | [], acc => some acc
  | c :: rest, acc =>
    match decDigit? c with
    | some d => decDigitsGo rest (acc * 10 + d)
    | none => none

/-- A non-empty all-digit decimal numeral. -/
def parseNatDigits : List Char → Option Nat
  | [] => none
  | c :: rest =>
    match decDigit? c with
    | some d => decDigitsGo rest d
    | none => none

/-- Rust `i16::from_str`: optional sign, decimal digits, range check. -/
def parseI16 (s : List Char) : Option Int :=
  match s with
  | '+' :: rest =>
    (parseNatDigits rest).bind fun n =>
      if n ≤ 32767 then some (n : Int) else none
  | '-' :: rest =>
    (parseNatDigits rest).bind fun n =>
      if n ≤ 32768 then some (-(n : Int)) else none
  | _ =>
    (parseNatDigits s).bind fun n =>
      if n ≤ 32767 then some (n : Int) else none

/-- Value of an ASCII hexadecimal digit. -/
def hexDigit? (c : Char) : Option Nat :=
  if '0' ≤ c ∧ c ≤ '9' then some (c.toNat - '0'.toNat)
  else if 'a' ≤ c ∧ c ≤ 'f' then some (c.toNat - 'a'.toNat + 10)
  else if 'A' ≤ c ∧ c ≤ 'F' then some (c.toNat - 'A'.toNat + 10)
  else none

/-- Accumulates hexadecimal digits; fails on any non-digit. -/
def hexDigitsGo : List Char → Nat → Option Nat
  | [], acc => some acc
  | c :: rest, acc =>
    match hexDigit? c with
    | some d => hexDigitsGo rest (acc * 16 + d)
    | none => none

/-- A non-empty all-digit hexadecimal numeral. -/
def parseHexNat : List Char → Option Nat
  | [] => none
  | c :: rest =>
    match hexDigit? c with
    | some d => hexDigitsGo rest d
    | none => none

/-- Rust `u8::from_str_radix(s, 16)`: optional plus sign, hexadecimal
digits, range check against 255. -/
def parseU8Hex (s : List Char) : Option Nat :=
  match s with
  | '+' :: rest =>
    (parseHexNat rest).bind fun n => if n ≤ 255 then some n else none
  | _ =>
    (parseHexNat s).bind fun n => if n ≤ 255 then some n else none

/-- Rust `usize::from_str`: optional plus sign, decimal digits (the
machine-width bound is not modelled; the source does not bound `len`
beyond it). -/
def parseUsizeDec (s : List Char) : Option Nat :=
  match s with
  | '+' :: rest => parseNatDigits rest
  | _ => parseNatDigits s

/-! ## Monitor events (src/protocol.rs, `Protocol::read_event`,
lines 415-455, and `MonitorEvent`, lines 592-612) -/

/-- The `MonitorEvent` enum; `sender` and `dest` model the Rust fields
`from` and `to` (both Lean keywords), and the ignored `snr` token of
`MSG` lines has no field, as in the source. -/
inductive MonitorEvent where
  | message (sender : List Char) (dest : Option (List Char)) (rssi : Int)
      (text : List Char)
  | advertisement (node_hash : Nat) (rssi : Int) (name : Option (List Char))
  | ack (sender : List Char)
  | error (message : List Char)

/-- Splits off everything before the first occurrence of `sep`, or
reports that `sep` does not occur. -/
def splitFirstAt (sep : Char) : List Char → Option (List Char × List Char)
  | [] => none
  | c :: rest =>
    if c == sep then some ([], rest)
    else (splitFirstAt sep rest).map (fun p => (c :: p.1, p.2))

/-- Rust `str::splitn(n, sep)`: at most `n` pieces, the last piece
holding the unsplit remainder. -/
def splitn : Nat → Char → List Char → List (List Char)
  | 0, _, _ => []
  | 1, _, s => [s]
  | n + 2, sep, s =>
    match splitFirstAt sep s with
    | none => [s]
    | some (a, b) => a :: splitn (n + 1) sep b

/-- Rust `str::trim_start_matches("0x")`: strips every leading `0x`. -/
def stripAll0x : List Char → List Char
  | '0' :: 'x' :: rest => stripAll0x rest
  | s => s

/-- The monitor-event decoder `read_event` (src/protocol.rs lines
415-455) on the result of the line read: `none` is a line-read timeout.
Indexing `parts[i]` is modelled by `List.getD i []`, which agrees with
the source under the guarding length checks. -/
def read_event (line? : Option (List Char)) : Option MonitorEvent :=
  match line? with
  | none => none
  | some line =>
    if startsWithL "MSG ".toList line then
      let parts := splitn 6 ' ' line
      if 6 ≤ parts.length then
        some (.message (parts.getD 1 [])
          (if parts.getD 2 [] == ['*'] then none else some (parts.getD 2 []))
          ((parseI16 (parts.getD 3 [])).getD 0)
          (parts.getD 5 []))
      else none
    else if startsWithL "ADV ".toList line then
      let parts := splitn 4 ' ' line
      if 3 ≤ parts.length then
        some (.advertisement ((parseU8Hex (stripAll0x (parts.getD 1 []))).getD 0)
          ((parseI16 (parts.getD 2 [])).getD 0)
          (parts.get? 3))
      else none
    else if startsWithL "ACK ".toList line then
      some (.ack (line.drop 4))
    else if startsWithL "ERR ".toList line then
      some (.error (line.drop 4))
    else none

/-! ## Raw packet receive (src/protocol.rs, `Protocol::recv_packet`,
lines 562-588) -/

/-- Result of the packet-data accumulation loop. `blocked` marks the
finite model running out of read events while the source loop would
still be waiting on the port; it corresponds to no returning source
path. -/
inductive PktRead where
  | done (buf : List Nat)
  | timeoutFail
  | blocked

/-- The accumulation loop of `recv_packet` (src/protocol.rs lines
574-582): while fewer than `len` bytes are read, issue another bounded
read; `some chunk` delivers bytes (truncated to the remaining capacity
of `buf[read..]`, as the slice argument enforces in the source) and
`none` is an elapsed per-chunk timeout, which aborts with the
timeout-reading-packet-data error. -/
def read_packet_data (len : Nat) : List (Option (List Nat)) → List Nat → PktRead
  | [], acc =>
    if len ≤ acc.length then .done acc else .blocked
  | none :: _, acc =>
    if len ≤ acc.length then .done acc else .timeoutFail
  | some chunk :: rest, acc =>
    if len ≤ acc.length then .done acc
    else read_packet_data len rest (acc ++ chunk.take (len - acc.length))

/-- Result of `recv_packet`: no packet (line timeout or a non-`PKT`
line), a header whose length field fails to parse (the `?` on
`len_str.parse()`), a complete buffer, a data timeout, or the artificial
`blocked` marker of the finite model. -/
inductive RecvResult where
  | noPacket
  | headerErr
  | done (buf : List Nat)
  | timeoutFail
  | blocked

/-- The `recv_packet` flow (src/protocol.rs lines 562-588): a `PKT`
line's remainder is trimmed and parsed as the length, then exactly that
many raw bytes are accumulated. -/
def recv_packet (line? : Option (List Char)) (events : List (Option (List Nat))) :
    RecvResult :=
  match line? with
  | none => .noPacket
  | some line =>
    if startsWithL "PKT".toList line then
      match parseUsizeDec (trimChars (line.drop 3)) with
      | none => .headerErr
      | some len =>
        match read_packet_data len events [] with
        | .done buf => .done buf
        | .timeoutFail => .timeoutFail
        | .blocked => .blocked
    else .noPacket

/-! ## Proofs -/

/-- Decoding a buffer that begins with a full group of `xs.length` data
bytes copies `xs` verbatim and continues on the remainder. -/
lemma cobs_decode_go_copy (xs : List Nat) :
    ∀ (rest : List Nat) (code : Nat),
      cobs_decode_go (xs ++ rest) xs.length code
        = (cobs_decode_go rest 0 code).map (fun t => xs ++ t) := by
  induction xs with
  | nil =>
      intro rest code
      simp [Option.map_id']
  | cons x xs ih =>
      intro rest code
      simp [cobs_decode_go, ih, Option.map_map, Function.comp_def]

/-- Decoding the encoder's output from any intermediate encoder state
recovers the pending group followed by the remaining input; `prev`
records the previous group's code byte on the decoder side. -/
lemma cobs_decode_encode_go (data : List Nat) :
    ∀ (groupRev : List Nat) (code prev : Nat),
      code = groupRev.length + 1 → code ≤ 254 →
      cobs_decode_go (cobs_encode_go data groupRev code) 0 prev
        = some ((if prev < 255 then [0] else []) ++ (groupRev.reverse ++ data)) := by
  induction data with
  | nil =>
      intro groupRev code prev hc hle
      have hne : ¬ code = 0 := by omega
      have hlen : code - 1 = groupRev.reverse.length := by
        simp [hc]
      have hcopy := cobs_decode_go_copy groupRev.reverse [] code
      simp only [List.append_nil] at hcopy
      simp only [cobs_encode_go, cobs_decode_go, hne, if_false, hlen, hcopy]
      by_cases hp : prev < 255 <;> simp [hp, cobs_decode_go]
  | cons b rest ih =>
      intro groupRev code prev hc hle
      by_cases hb : b = 0
      · have hne : ¬ code = 0 := by omega
        have hlen : code - 1 = groupRev.reverse.length := by
          simp [hc]
        have hcopy :=
          cobs_decode_go_copy groupRev.reverse (cobs_encode_go rest [] 1) code
        have hih := ih [] 1 code rfl (by omega)
        have hlt : code < 255 := by omega
        simp only [hlt, if_true, List.nil_append] at hih
        simp only [cobs_encode_go, hb, if_true, List.cons_append,
          cobs_decode_go, hne, if_false, hlen, hcopy, hih, Option.map_some']
        by_cases hp : prev < 255 <;> simp [hp, hb]
      · by_cases hfull : code + 1 = 255
        · have hlen : (255 : Nat) - 1 = ((b :: groupRev).reverse).length := by
            simp [List.length_reverse]
            omega
          have hcopy :=
            cobs_decode_go_copy (b :: groupRev).reverse (cobs_encode_go rest [] 1) 255
          have hih := ih [] 1 255 rfl (by omega)
          have h255 : ¬ (255 : Nat) < 255 := by omega
          simp only [h255, if_false, List.nil_append] at hih
          simp only [cobs_encode_go, hb, if_false, hfull, if_true, List.cons_append,
            cobs_decode_go, hlen, hcopy, hih, Option.map_some']
          by_cases hp : prev < 255 <;> simp [hp]
        · have hih := ih (b :: groupRev) (code + 1)
            prev (by simp [hc]) (by omega)
          simp only [cobs_encode_go, hb, if_false, hfull, hih]
          by_cases hp : prev < 255 <;> simp [hp]

/-- The encoder's output contains no zero byte from any encoder state in
which the pending group holds no zero byte and the pending code byte is
positive. -/
lemma cobs_encode_go_ne_zero (data : List Nat) :
    ∀ (groupRev : List Nat) (code : Nat),
      (∀ x ∈ groupRev, x ≠ 0) → 0 < code →
      0 ∉ cobs_encode_go data groupRev code := by
  induction data with
  | nil =>
      intro groupRev code hg hpos
      simp only [cobs_encode_go, List.mem_cons, List.mem_reverse]
      rintro (h | h)
      · omega
      · exact hg 0 h rfl
  | cons b rest ih =>
      intro groupRev code hg hpos
      by_cases hb : b = 0
      · simp only [cobs_encode_go, hb, if_true, List.mem_append, List.mem_cons,
          List.mem_reverse]
        rintro ((h | h) | h)
        · omega
        · exact hg 0 h rfl
        · exact ih [] 1 (by simp) (by omega) h
      · by_cases hfull : code + 1 = 255
        · simp only [cobs_encode_go, hb, if_false, hfull, if_true, List.mem_append,
            List.mem_cons, List.mem_reverse]
          rintro ((h | h | h) | h)
          · omega
          · exact hb h.symm
          · exact hg 0 h rfl
          · exact ih [] 1 (by simp) (by omega) h
        · simp only [cobs_encode_go, hb, if_false, hfull]
          refine ih (b :: groupRev) (code + 1) ?_ (by omega)
          intro x hx
          rcases List.mem_cons.1 hx with h | h
          · simpa [h] using hb
          · exact hg x h

/-- C1: decoding the encoding of any byte sequence, including empty,
all-zero and delimiter-heavy ones, returns exactly that sequence. -/
theorem cobs_decode_encode_roundtrip (b : List Nat) (h : ∀ x ∈ b, x < 256) :
    cobs_decode (cobs_encode b) = some b := by
  have hmain := cobs_decode_encode_go b [] 1 255 rfl (by omega)
  simpa [cobs_decode, cobs_encode] using hmain

/-- Concrete round-trip instance of `cobs_decode_encode_roundtrip` on a
delimiter-heavy input. -/
theorem cobs_decode_encode_roundtrip_witness :
    (∀ x ∈ ([0, 0, 7, 0, 200] : List Nat), x < 256) ∧
      cobs_decode (cobs_encode [0, 0, 7, 0, 200]) = some [0, 0, 7, 0, 200] :=
  ⟨by decide, cobs_decode_encode_roundtrip [0, 0, 7, 0, 200] (by decide)⟩

/-- C8: the encoder's output never contains the zero delimiter byte, and
the bytes put on the wire by `write_cobs_frame` contain the delimiter
exactly once, as the terminator appended after the encoding. -/
theorem cobs_encode_no_delimiter (b : List Nat) :
    0 ∉ cobs_encode b ∧ (write_cobs_frame_bytes b).count 0 = 1 := by
  have hne : 0 ∉ cobs_encode b :=
    cobs_encode_go_ne_zero b [] 1 (by simp) (by omega)
  refine ⟨hne, ?_⟩
  simp [write_cobs_frame_bytes, List.count_append, List.count_eq_zero.2 hne]

/-- C2: evaluation of the source decoder at the truncated group
`[5, 1, 2]` (the code marker 5 claims four data bytes, only two remain):
the decoder returns the partial payload `[1, 2]`, not the invalid-frame
result `none` required by the claim. -/
theorem cobs_decode_truncated_partial_result :
    cobs_decode [5, 1, 2] = some [1, 2] ∧ cobs_decode [5, 1, 2] ≠ none := by
  decide

/-- A frame recognized as a debug frame is skipped by the classifier. -/
lemma classifyFrame_debug (parse : List Char → Option Json) (line : List Char)
    (h : isDebugFrame parse line = true) :
    classifyFrame parse line = .skip := by
  simp [classifyFrame, h]

/-- A non-debug `"OK"` frame with nothing after the prefix classifies to
`Response::Ok(None)`. -/
lemma classifyFrame_ok_bare (parse : List Char → Option Json)
    (h : isDebugFrame parse "OK".toList = false) :
    classifyFrame parse "OK".toList = .reply (.ok none) := by
  simp only [classifyFrame, h]
  rfl

/-- Once the skip budget is reached, the loop bails out regardless of
the remaining input. -/
lemma read_response_go_budget (parse : List Char → Option Json)
    (input : List (Option (List Char))) (k : Nat)
    (h : MAX_SKIP_FRAMES ≤ k) :
    read_response_go parse input k = .tooMany := by
  match input with
  | [] => simp [read_response_go, h]
  | none :: _ => simp [read_response_go, h]
  | some _ :: _ => simp [read_response_go, h]

/-- Debug frames are consumed one at a time, each incrementing the skip
counter, until either the budget trips or the frames are exhausted. -/
lemma read_response_go_replicate (parse : List Char → Option Json)
    (dbg : List Char) (hdbg : isDebugFrame parse dbg = true)
    (rest : List (Option (List Char))) :
    ∀ (N k : Nat),
      read_response_go parse (List.replicate N (some dbg) ++ rest) k
        = if MAX_SKIP_FRAMES ≤ k + N then .tooMany
          else read_response_go parse rest (k + N) := by
  intro N
  induction N with
  | zero =>
      intro k
      by_cases h : MAX_SKIP_FRAMES ≤ k
      · simp [h, read_response_go_budget parse rest k h]
      · simp [h]
  | succ n ih =>
      intro k
      by_cases h : MAX_SKIP_FRAMES ≤ k
      · have h' : MAX_SKIP_FRAMES ≤ k + (n + 1) := by omega
        simp only [List.replicate_succ, List.cons_append]
        simp [read_response_go, h, h']
      · rw [List.replicate_succ, List.cons_append]
        have hstep :
            read_response_go parse
                (some dbg :: (List.replicate n (some dbg) ++ rest)) k
              = read_response_go parse
                  (List.replicate n (some dbg) ++ rest) (k + 1) := by
          simp [read_response_go, h, classifyFrame_debug parse dbg hdbg]
        rw [hstep, ih (k + 1)]
        have harith : k + 1 + n = k + (n + 1) := by omega
        rw [harith]

/-- C3: the response classifier maps `"OK"` to `Ok(None)`, `"OK foo"` to
`Ok(Some("foo"))`, `"ERR bad arg"` to `Error("bad arg")`, the JSON text
to `Json({"a":1})`, `"PONG"` to `Ok(Some("PONG"))`; and in general an
`OK`-prefixed non-debug frame yields `Ok(None)` when the trimmed
remainder is empty and otherwise the trimmed remainder as the message.
The hypotheses record the external JSON parser's behaviour on these
lines (the non-JSON lines do not parse; the object line parses to the
object). -/
theorem response_classification (parse : List Char → Option Json)
    (hOK : parse "OK".toList = none)
    (hOKfoo : parse "OK foo".toList = none)
    (hERR : parse "ERR bad arg".toList = none)
    (hPONG : parse "PONG".toList = none)
    (hJson : parse "\x7b\"a\":1\x7d".toList
      = some (.obj [("a".toList, .num 1)])) :
    classifyFrame parse "OK".toList = .reply (.ok none) ∧
    classifyFrame parse "OK foo".toList = .reply (.ok (some "foo".toList)) ∧
    classifyFrame parse "ERR bad arg".toList
      = .reply (.error "bad arg".toList) ∧
    classifyFrame parse "\x7b\"a\":1\x7d".toList
      = .reply (.json (.obj [("a".toList, .num 1)])) ∧
    classifyFrame parse "PONG".toList = .reply (.ok (some "PONG".toList)) ∧
    (∀ s : List Char, isDebugFrame parse ('O' :: 'K' :: s) = false →
      classifyFrame parse ('O' :: 'K' :: s)
        = .reply (.ok (if (trimChars s).isEmpty then none
            else some (trimChars s)))) := by
  refine ⟨?_, ?_, ?_, ?_, ?_, ?_⟩
  · simp only [classifyFrame, isDebugFrame, hOK]
    rfl
  · simp only [classifyFrame, isDebugFrame, hOKfoo]
    rfl
  · simp only [classifyFrame, isDebugFrame, hERR]
    rfl
  · simp only [classifyFrame, isDebugFrame, hJson]
    rfl
  · simp only [classifyFrame, isDebugFrame, hPONG]
    rfl
  · intro s hdbg
    have hpre : startsWithL "OK".toList ('O' :: 'K' :: s) = true := by
      simp [startsWithL]
    simp only [classifyFrame, hdbg, Bool.false_eq_true, if_false]
    rw [hpre]
    simp [List.drop]

/-- Concrete instance of `response_classification` at the stub parser. -/
theorem response_classification_witness :
    (parseStub "OK".toList = none) ∧
      classifyFrame parseStub "OK".toList = .reply (.ok none) ∧
      classifyFrame parseStub "OK foo".toList
        = .reply (.ok (some "foo".toList)) := by
  have h := response_classification parseStub rfl rfl rfl rfl rfl
  exact ⟨rfl, h.1, h.2.1⟩

/-- C10: classification keys on the raw prefix without a separator; an
`OK`-prefixed non-debug frame (such as `"OKAY"`) yields `Ok` with the
trimmed remainder after `"OK"` as the message, and an `ERR`-prefixed
non-debug frame (such as `"ERRATA"`) yields `Error` with the trimmed
remainder after `"ERR"`. -/
theorem classification_raw_prefixes (parse : List Char → Option Json)
    (hOKAY : parse "OKAY".toList = none)
    (hERRATA : parse "ERRATA".toList = none) :
    classifyFrame parse "OKAY".toList = .reply (.ok (some "AY".toList)) ∧
    classifyFrame parse "ERRATA".toList = .reply (.error "ATA".toList) ∧
    (∀ s : List Char, isDebugFrame parse ('O' :: 'K' :: s) = false →
      classifyFrame parse ('O' :: 'K' :: s)
        = .reply (.ok (if (trimChars s).isEmpty then none
            else some (trimChars s)))) ∧
    (∀ s : List Char, isDebugFrame parse ('E' :: 'R' :: 'R' :: s) = false →
      classifyFrame parse ('E' :: 'R' :: 'R' :: s)
        = .reply (.error (trimChars s))) := by
  refine ⟨?_, ?_, ?_, ?_⟩
  · simp only [classifyFrame, isDebugFrame, hOKAY]
    rfl
  · simp only [classifyFrame, isDebugFrame, hERRATA]
    rfl
  · intro s hdbg
    have hpre : startsWithL "OK".toList ('O' :: 'K' :: s) = true := by
      simp [startsWithL]
    simp only [classifyFrame, hdbg, Bool.false_eq_true, if_false]
    rw [hpre]
    simp [List.drop]
  · intro s hdbg
    have hok : startsWithL "OK".toList ('E' :: 'R' :: 'R' :: s) = false := by
      simp [startsWithL]
    have herr : startsWithL "ERR".toList ('E' :: 'R' :: 'R' :: s) = true := by
      simp [startsWithL]
    simp only [classifyFrame, hdbg, Bool.false_eq_true, if_false]
    rw [hok, herr]
    simp [List.drop]

/-- Concrete instance of `classification_raw_prefixes` at the stub
parser. -/
theorem classification_raw_prefixes_witness :
    (parseStub "OKAY".toList = none) ∧
      classifyFrame parseStub "OKAY".toList
        = .reply (.ok (some "AY".toList)) ∧
      classifyFrame parseStub "ERRATA".toList
        = .reply (.error "ATA".toList) := by
  have h := classification_raw_prefixes parseStub rfl rfl
  exact ⟨rfl, h.1, h.2.1⟩

/-- C5 counterexample: a frame that merely begins with a brace but is
not valid JSON is not skipped; the response loop aborts with the
propagated parse error instead of continuing to the following `"OK"`
frame. -/
theorem json_prefix_aborts_counterexample :
    read_response parseStub [some "\x7boops".toList, some "OK".toList]
        = .parseFail ∧
      classifyFrame parseStub "\x7boops".toList ≠ .skip := by
  constructor
  · rfl
  · intro h
    have h' : FrameStep.parseFail = FrameStep.skip :=
      (rfl : classifyFrame parseStub "\x7boops".toList = .parseFail).symm.trans h
    exact FrameStep.noConfusion h'

/-- C5 amended: an inbound frame that is not a debug frame, carries none
of the `OK`/`ERR`/`PKT`/`PONG` prefixes, and does not begin with a brace
or bracket is skipped, counted against the budget, and the loop
continues reading. -/
theorem unrecognized_frame_skipped (parse : List Char → Option Json)
    (line : List Char) (rest : List (Option (List Char))) (k : Nat)
    (hdbg : isDebugFrame parse line = false)
    (hok : startsWithL "OK".toList line = false)
    (herr : startsWithL "ERR".toList line = false)
    (hbrace : startsWithL ['\x7b'] line = false)
    (hbracket : startsWithL ['['] line = false)
    (hpkt : startsWithL "PKT".toList line = false)
    (hpong : startsWithL "PONG".toList line = false)
    (hbudget : k < MAX_SKIP_FRAMES) :
    classifyFrame parse line = .skip ∧
      read_response_go parse (some line :: rest) k
        = read_response_go parse rest (k + 1) := by
  have hskip : classifyFrame parse line = .skip := by
    simp only [classifyFrame, hdbg, Bool.false_eq_true, if_false]
    rw [hok, herr, hbrace, hbracket, hpkt, hpong]
    simp
  have hbudget' : ¬ MAX_SKIP_FRAMES ≤ k := by omega
  exact ⟨hskip, by simp [read_response_go, hbudget', hskip]⟩

/-- Concrete instance of `unrecognized_frame_skipped` on boot noise. -/
theorem unrecognized_frame_skipped_witness :
    (isDebugFrame parseStub "boot: radio init".toList = false) ∧
      classifyFrame parseStub "boot: radio init".toList = .skip ∧
      read_response_go parseStub
          [some "boot: radio init".toList, some "OK".toList] 0
        = read_response_go parseStub [some "OK".toList] 1 := by
  have h := unrecognized_frame_skipped parseStub "boot: radio init".toList
    [some "OK".toList] 0 rfl rfl rfl rfl rfl rfl rfl (by decide)
  exact ⟨rfl, h.1, h.2⟩

/-- C4: a stream of `N` debug frames followed by one `"OK"` frame
resolves to `Ok(None)` when `N` is below the skip budget of 50 and
fails with the distinct too-many-unrecognized-frames error when `N` is
at or above it. -/
theorem debug_skip_budget (parse : List Char → Option Json)
    (dbg : List Char) (N : Nat)
    (hdbg : isDebugFrame parse dbg = true)
    (hok : isDebugFrame parse "OK".toList = false) :
    read_response parse (List.replicate N (some dbg) ++ [some "OK".toList])
      = if N < MAX_SKIP_FRAMES then .ok (.ok none) else .tooMany := by
  unfold read_response
  rw [read_response_go_replicate parse dbg hdbg [some "OK".toList] N 0]
  simp only [Nat.zero_add]
  by_cases h : MAX_SKIP_FRAMES ≤ N
  · have h' : ¬ N < MAX_SKIP_FRAMES := by omega
    simp [h, h']
  · have h' : N < MAX_SKIP_FRAMES := by omega
    simp only [h, if_false, h', if_true]
    have hcl : classifyFrame parse "OK".toList = .reply (.ok none) :=
      classifyFrame_ok_bare parse hok
    simp only [read_response_go, hcl]
    simp [h]

/-- Concrete instances of `debug_skip_budget` just below and at the
budget. -/
theorem debug_skip_budget_witness :
    (isDebugFrame parseStub "\x7b\"type\":\"debug\"\x7d".toList = true) ∧
      read_response parseStub
          (List.replicate 3 (some "\x7b\"type\":\"debug\"\x7d".toList)
            ++ [some "OK".toList])
        = .ok (.ok none) ∧
      read_response parseStub
          (List.replicate 50 (some "\x7b\"type\":\"debug\"\x7d".toList)
            ++ [some "OK".toList])
        = .tooMany := by
  refine ⟨rfl, ?_, ?_⟩
  · have h := debug_skip_budget parseStub "\x7b\"type\":\"debug\"\x7d".toList
      3 rfl rfl
    simpa using h
  · have h := debug_skip_budget parseStub "\x7b\"type\":\"debug\"\x7d".toList
      50 rfl rfl
    simpa using h

/-- C6: a command whose first read times out with no frame fails with
the command-timeout error, while a command that receives an explicit
`ERR` frame yields `Response::Error` with the device's trimmed message;
the two outcomes are distinct results. -/
theorem timeout_distinct_from_device_error (parse : List Char → Option Json)
    (rest : List (Option (List Char))) (msg : List Char)
    (hdbg : isDebugFrame parse ('E' :: 'R' :: 'R' :: ' ' :: msg) = false) :
    read_response parse (none :: rest) = .timeout ∧
      read_response parse [some ('E' :: 'R' :: 'R' :: ' ' :: msg)]
        = .ok (.error (trimChars msg)) ∧
      (∀ m : List Char, ReadResult.timeout ≠ ReadResult.ok (.error m)) := by
  refine ⟨rfl, ?_, ?_⟩
  · have hok : startsWithL "OK".toList ('E' :: 'R' :: 'R' :: ' ' :: msg)
        = false := by
      simp [startsWithL]
    have herr : startsWithL "ERR".toList ('E' :: 'R' :: 'R' :: ' ' :: msg)
        = true := by
      simp [startsWithL]
    have hcl : classifyFrame parse ('E' :: 'R' :: 'R' :: ' ' :: msg)
        = .reply (.error (trimChars msg)) := by
      simp only [classifyFrame, hdbg, Bool.false_eq_true, if_false]
      rw [hok, herr]
      simp [List.drop, trimChars, trimLeftChars, isWs]
    simp [read_response, read_response_go, hcl, MAX_SKIP_FRAMES]
  · intro m h
    exact ReadResult.noConfusion h

/-- Concrete instance of `timeout_distinct_from_device_error`. -/
theorem timeout_distinct_witness :
    (isDebugFrame parseStub "ERR boom".toList = false) ∧
      read_response parseStub [none] = .timeout ∧
      read_response parseStub [some "ERR boom".toList]
        = .ok (.error "boom".toList) := by
  have h := timeout_distinct_from_device_error parseStub []
    "boom".toList rfl
  exact ⟨rfl, h.1, h.2.1⟩

/-- Whenever the accumulation loop completes, the buffer holds exactly
`len` bytes (the truncation to remaining capacity keeps the running
total at most `len`). -/
lemma read_packet_data_done_length (len : Nat) :
    ∀ (events : List (Option (List Nat))) (acc buf : List Nat),
      acc.length ≤ len → read_packet_data len events acc = .done buf →
      buf.length = len := by
  intro events
  induction events with
  | nil =>
      intro acc buf hle hdone
      by_cases h : len ≤ acc.length
      · simp only [read_packet_data, h, if_true] at hdone
        cases hdone
        omega
      · simp [read_packet_data, h] at hdone
  | cons e rest ih =>
      intro acc buf hle hdone
      match e with
      | none =>
          by_cases h : len ≤ acc.length
          · simp only [read_packet_data, h, if_true] at hdone
            cases hdone
            omega
          · simp [read_packet_data, h] at hdone
      | some chunk =>
          by_cases h : len ≤ acc.length
          · simp only [read_packet_data, h, if_true] at hdone
            cases hdone
            omega
          · simp only [read_packet_data, h, if_false] at hdone
            refine ih (acc ++ chunk.take (len - acc.length)) buf ?_ hdone
            have htake : (chunk.take (len - acc.length)).length
                ≤ len - acc.length := by
              simp [List.length_take]
            simp only [List.length_append]
            omega

/-- C9: on a `"PKT <len>"` header the packet reader returns only
complete buffers of exactly `len` bytes, and a per-chunk timeout before
the buffer is complete fails with the timeout error rather than
returning a short buffer. -/
theorem recv_packet_exact_len (line : List Char) (len : Nat)
    (hpkt : startsWithL "PKT".toList line = true)
    (hlen : parseUsizeDec (trimChars (line.drop 3)) = some len) :
    (∀ (events : List (Option (List Nat))) (buf : List Nat),
      recv_packet (some line) events = .done buf → buf.length = len) ∧
    (∀ rest : List (Option (List Nat)), 0 < len →
      recv_packet (some line) (none :: rest) = .timeoutFail) := by
  constructor
  · intro events buf hdone
    simp only [recv_packet] at hdone
    rw [hpkt] at hdone
    simp only [if_true, hlen] at hdone
    cases hr : read_packet_data len events [] with
    | done b =>
        rw [hr] at hdone
        cases hdone
        exact read_packet_data_done_length len events [] _ (by simp) hr
    | timeoutFail => rw [hr] at hdone; cases hdone
    | blocked => rw [hr] at hdone; cases hdone
  · intro rest h0
    simp only [recv_packet]
    rw [hpkt]
    simp only [if_true, hlen]
    have hz : ¬ len = 0 := by omega
    simp [read_packet_data, hz]

/-- Concrete instance of `recv_packet_exact_len`: the header claims two
bytes; two chunked reads deliver exactly two bytes, and a chunk timeout
aborts. -/
theorem recv_packet_exact_len_witness :
    (startsWithL "PKT".toList "PKT 2".toList = true) ∧
      ([7, 8] : List Nat).length = 2 ∧
      recv_packet (some "PKT 2".toList) [none] = .timeoutFail := by
  have h := recv_packet_exact_len "PKT 2".toList 2 rfl rfl
  exact ⟨rfl, h.1 [some [7], some [8, 9]] [7, 8] rfl, h.2 [] (by omega)⟩

/-- C7: the monitor-event decoder maps `"ADV 0x1a 10 Alice"` to the
advertisement event with node hash 0x1a, rssi 10 and name `"Alice"`, and
`"MSG 0x1a * 5 2 hello world"` to the message event from `"0x1a"` to the
broadcast target with rssi 5 and text `"hello world"`; every line
matching no event prefix, and the malformed `MSG` line below, yield
`none` rather than an error, as does a line-read timeout. -/
theorem monitor_event_parsing :
    read_event (some "ADV 0x1a 10 Alice".toList)
      = some (.advertisement 0x1a 10 (some "Alice".toList)) ∧
    read_event (some "MSG 0x1a * 5 2 hello world".toList)
      = some (.message "0x1a".toList none 5 "hello world".toList) ∧
    (∀ line : List Char,
      startsWithL "MSG ".toList line = false →
      startsWithL "ADV ".toList line = false →
      startsWithL "ACK ".toList line = false →
      startsWithL "ERR ".toList line = false →
      read_event (some line) = none) ∧
    read_event (some "MSG 0x1a *".toList) = none ∧
    read_event none = none := by
  refine ⟨rfl, rfl, ?_, rfl, rfl⟩
  intro line hmsg hadv hack herr
  simp only [read_event]
  rw [hmsg, hadv, hack, herr]
  simp

/-- Concrete instance of `monitor_event_parsing`'s no-prefix case on a
boot-noise line, together with the `ADV` example. -/
theorem monitor_event_parsing_witness :
    read_event (some "boot: radio init".toList) = none ∧
      read_event (some "ADV 0x1a 10 Alice".toList)
        = some (.advertisement 0x1a 10 (some "Alice".toList)) :=
  ⟨monitor_event_parsing.2.2.1 "boot: radio init".toList rfl rfl rfl rfl,
    monitor_event_parsing.1⟩

end Meshgrid
